import Mathlib

/-!
Shallow embedding of the rsvpub playback core: the data model (src/types),
the timing model (src/rsvp/timing), the recognition-point computation
(src/rsvp/word-processor), the position clamping logic (ui/app clampPosition)
and the playback engine state machine (src/rsvp/engine).

Conventions of the embedding:
* JS strings are `List Char`; JS numbers carrying array indices are `Int`
  (they are produced by integer arithmetic only), and JS numbers carrying
  durations and factors are `ℚ` (the arithmetic in the source stays exact
  on the rational values the claims mention).
* `arr[i]` on a JS array yields `undefined` out of range; we model reads as
  `Option`, and a member access on a possibly-`undefined` value as an
  `Option`-valued function whose `none` result is a thrown TypeError.
* Each engine method returns the successor state together with the list of
  notification events it fires (in order), since subscribers are external.
-/

/-- JS array read `l[i]`: `undefined` (`none`) when out of range. -/
def jsGet? {α : Type} (l : List α) (i : Int) : Option α :=
  if 0 ≤ i then l[i.toNat]? else none

/-! ## Data model (src/types.ts) -/

structure ReadingPosition where
  chapterIndex : Int
  paragraphIndex : Int
  wordIndex : Int
deriving DecidableEq, Repr

structure ProcessedWord where
  text : List Char
  orpIndex : Nat
  delay : ℚ
deriving DecidableEq, Repr

structure Paragraph where
  words : List ProcessedWord
  sourceElement : String
deriving DecidableEq, Repr

structure Chapter where
  index : Int
  title : String
  paragraphs : List Paragraph
deriving DecidableEq, Repr

structure ProcessedBook where
  title : String
  author : String
  chapters : List Chapter
deriving DecidableEq, Repr

inductive RSVPStatus where
  | idle | loading | ready | playing | paused
deriving DecidableEq, Repr

inductive ViewMode where
  | rsvp | paragraph
deriving DecidableEq, Repr

structure CurrentWordInfo where
  word : ProcessedWord
  position : ReadingPosition
  totalWordsInParagraph : Nat
  totalParagraphsInChapter : Nat
  totalChapters : Nat
  chapterTitle : String
deriving DecidableEq, Repr

/-- The word a position denotes, via the optional-chained reads
`book.chapters[ci]?.paragraphs[pi]?.words[wi]`. -/
def wordAt (book : ProcessedBook) (pos : ReadingPosition) : Option ProcessedWord :=
  (jsGet? book.chapters pos.chapterIndex).bind fun chapter =>
    (jsGet? chapter.paragraphs pos.paragraphIndex).bind fun paragraph =>
      jsGet? paragraph.words pos.wordIndex

/-- Validity invariant of section 3 of the spec: all three indices are in
range for the book, i.e. the position resolves to a word. -/
def validPos (book : ProcessedBook) (pos : ReadingPosition) : Bool :=
  (wordAt book pos).isSome

/-- A non-degenerate book: at least one chapter, every chapter has at least
one paragraph, every paragraph has at least one word. -/
def wellFormedBook (book : ProcessedBook) : Bool :=
  !book.chapters.isEmpty &&
    book.chapters.all fun chapter =>
      !chapter.paragraphs.isEmpty &&
        chapter.paragraphs.all fun paragraph => !paragraph.words.isEmpty

/-! ## Timing model (src/rsvp/timing.ts) -/

structure TimingSettings where
  lengthDelayEnabled : Bool
  lengthDelayFactor : ℚ       -- 0.0 - 0.5
  frequencyDelayEnabled : Bool
  frequencyDelayFactor : ℚ    -- 0.0 - 1.0
deriving DecidableEq, Repr

def DEFAULT_TIMING_SETTINGS : TimingSettings :=
  { lengthDelayEnabled := false
    lengthDelayFactor := 1/10      -- 0.1
    frequencyDelayEnabled := false
    frequencyDelayFactor := 3/10 } -- 0.3

def DEFAULT_WPM : ℚ := 300

/-- The record `PUNCTUATION_MULTIPLIERS[c] ?? 0`. -/
def PUNCTUATION_MULTIPLIERS (c : Char) : ℚ :=
  if c = ',' then 3/4        -- 0.75
  else if c = ';' then 3/4
  else if c = ':' then 3/4
  else if c = '.' then 3/2   -- 1.5
  else if c = '!' then 3/2
  else if c = '?' then 3/2
  else if c = Char.ofNat 0x2014 then 1    -- em dash
  else if c = '-' then 1/4   -- 0.25
  else 0

def calculateBaseInterval (wpm : ℚ) : ℚ := 60000 / wpm

/-- `word.slice(-1)` looked up in the multiplier table (`?? 0`); the empty
string has no last character and the lookup misses. -/
def calculatePunctuationDelay (word : List Char) (baseInterval : ℚ) : ℚ :=
  match word.getLast? with
  | none => 0
  | some lastChar => baseInterval * PUNCTUATION_MULTIPLIERS lastChar

/-- The character class `[^a-zA-Z0-9]` removed by
`word.replace(/[^a-zA-Z0-9]/g, "")`: we keep the ASCII alphanumerics. -/
def isAsciiAlnum (c : Char) : Bool := c.isAlpha || c.isDigit

def calculateLengthDelay (word : List Char) (baseInterval : ℚ) (factor : ℚ) : ℚ :=
  let stripped := word.filter isAsciiAlnum
  let extraChars : ℚ := (stripped.length : ℚ) - 5
  if extraChars ≤ 0 then 0 else extraChars * factor * baseInterval

/-! The frequency collaborator (src/wordlist.ts).  Its module state
`wordRanks : Map<string, number> | null` is passed explicitly. -/

def WordRanks : Type := Option (List (List Char × Nat))

def BUCKET_THRESHOLDS : List (Nat × ℚ) :=
  [(1000, 0), (3000, 1/4), (5000, 1/2), (10000, 3/4)]

def NOT_IN_LIST_MULTIPLIER : ℚ := 1

/-- The `for (const bucket of BUCKET_THRESHOLDS)` loop: first threshold at
or above the rank wins, falling through to the not-in-list multiplier. -/
def bucketFor : List (Nat × ℚ) → Nat → ℚ
  | [], _ => NOT_IN_LIST_MULTIPLIER
  | (maxRank, multiplier) :: rest, rank =>
      if rank ≤ maxRank then multiplier else bucketFor rest rank

/-- `getWordBucketMultiplier` from src/wordlist.ts, with the loaded map as
an explicit argument. -/
def getWordBucketMultiplier (wordRanks : WordRanks) (word : List Char) : ℚ :=
  match wordRanks with
  | none => 0
  | some ranks =>
      if ranks.length = 0 then 0
      else
        let normalized := (word.map Char.toLower).filter fun c => 'a' ≤ c && c ≤ 'z'
        if normalized.length = 0 then 0
        else
          match ranks.lookup normalized with
          | none => NOT_IN_LIST_MULTIPLIER
          | some rank => bucketFor BUCKET_THRESHOLDS rank

def calculateFrequencyDelay (wordRanks : WordRanks) (word : List Char)
    (baseInterval : ℚ) (factor : ℚ) : ℚ :=
  getWordBucketMultiplier wordRanks word * factor * baseInterval

def calculateTotalDelay (wordRanks : WordRanks) (word : List Char) (wpm : ℚ)
    (settings : TimingSettings) : ℚ :=
  let baseInterval := calculateBaseInterval wpm
  let withPunctuation := baseInterval + calculatePunctuationDelay word baseInterval
  let withLength :=
    if settings.lengthDelayEnabled then
      withPunctuation + calculateLengthDelay word baseInterval settings.lengthDelayFactor
    else withPunctuation
  if settings.frequencyDelayEnabled then
    withLength + calculateFrequencyDelay wordRanks word baseInterval settings.frequencyDelayFactor
  else withLength

/-! ## Recognition point (src/rsvp/word-processor.ts) -/

/-- The character class of the strip regex exactly as its bytes stand in the
source.  The three characters 0xE2, 0x20AC, 0x201D are the mojibake of an
em dash (its UTF-8 bytes re-decoded as cp1252); the em dash itself (0x2014)
is NOT in the class. -/
def ORP_STRIP_CHARS : List Char :=
  ['.', ',', '!', '?', ';', ':', Char.ofNat 39, Char.ofNat 34,
   Char.ofNat 0xE2, Char.ofNat 0x20AC, Char.ofNat 0x201D, '-']

/-- The loop `while (len > 0 && regex.test(word[len - 1])) len--`. -/
def orpStripLen (word : List Char) : Nat → Nat
  | 0 => 0
  | n + 1 =>
      match word[n]? with
      | some c => if c ∈ ORP_STRIP_CHARS then orpStripLen word n else n + 1
      | none => n + 1

def calculateORP (word : List Char) : Nat :=
  let len := orpStripLen word word.length
  if len ≤ 1 then 0
  else if len ≤ 3 then 1
  else len / 2 - 1

/-- Modelled from the spec (section 4.1) for comparison with `calculateORP`:
the strip set is the fixed list `. , ! ? ; : quote doublequote emdash -`,
with the real em dash (0x2014). -/
def SPEC_ORP_STRIP_CHARS : List Char :=
  ['.', ',', '!', '?', ';', ':', Char.ofNat 39, Char.ofNat 34,
   Char.ofNat 0x2014, '-']

def specOrpStripLen (word : List Char) : Nat → Nat
  | 0 => 0
  | n + 1 =>
      match word[n]? with
      | some c => if c ∈ SPEC_ORP_STRIP_CHARS then specOrpStripLen word n else n + 1
      | none => n + 1

def specORP (word : List Char) : Nat :=
  let len := specOrpStripLen word word.length
  if len ≤ 1 then 0
  else if len ≤ 3 then 1
  else len / 2 - 1

/-! ## Clamping (clampPosition in the UI app module) -/

/-- The loop `while (chapter.paragraphs.length === 0 && chapterIndex > 0)
chapterIndex--` re-reading `chapter = book.chapters[chapterIndex]`; the
argument is the current chapter index, always in range at every read. -/
def walkBack (chapters : List Chapter) : Nat → Nat
  | 0 => 0
  | n + 1 =>
      match chapters[n + 1]? with
      | some chapter =>
          if chapter.paragraphs.length = 0 then walkBack chapters n else n + 1
      | none => n + 1

/-- `clampPosition` from the app module.  `none` models the TypeError thrown
by `chapter.paragraphs` when the book has no chapters at all (then
`book.chapters[0]` is `undefined`). -/
def clampPosition (book : ProcessedBook) (pos : ReadingPosition) :
    Option ReadingPosition :=
  let chapterIndex0 : Int := max 0 (min pos.chapterIndex ((book.chapters.length : Int) - 1))
  match jsGet? book.chapters chapterIndex0 with
  | none => none
  | some _ =>
      let chapterIndex : Nat := walkBack book.chapters chapterIndex0.toNat
      match book.chapters[chapterIndex]? with
      | none => none
      | some chapter =>
          let paragraphIndex : Int :=
            max 0 (min pos.paragraphIndex (max 0 ((chapter.paragraphs.length : Int) - 1)))
          let wordIndex : Int :=
            match jsGet? chapter.paragraphs paragraphIndex with
            | some paragraph =>
                max 0 (min pos.wordIndex (max 0 ((paragraph.words.length : Int) - 1)))
            | none => 0
          some { chapterIndex := (chapterIndex : Int)
                 paragraphIndex := paragraphIndex
                 wordIndex := wordIndex }

/-! ## Playback engine (src/rsvp/engine.ts)

The engine instance: the `RSVPState` record plus the private `timerId`
field.  `nextTimer` is the supply of fresh timer handles, so a pending
continuation is identified by its handle.  Each method returns the new
state and the ordered list of notifications delivered to subscribers. -/

structure EngineState where
  status : RSVPStatus
  position : ReadingPosition
  wpm : ℚ
  book : Option ProcessedBook
  viewMode : ViewMode
  timerId : Option Nat
  nextTimer : Nat
deriving DecidableEq, Repr

inductive REvent where
  | wordChange : Option CurrentWordInfo → REvent
  | statusChange : RSVPStatus → REvent
  | viewModeChange : ViewMode → REvent
deriving DecidableEq, Repr

def initialEngine : EngineState :=
  { status := RSVPStatus.idle
    position := { chapterIndex := 0, paragraphIndex := 0, wordIndex := 0 }
    wpm := DEFAULT_WPM
    book := none
    viewMode := ViewMode.rsvp
    timerId := none
    nextTimer := 0 }

def getCurrentWordInfo (s : EngineState) : Option CurrentWordInfo :=
  match s.book with
  | none => none
  | some book =>
      match jsGet? book.chapters s.position.chapterIndex with
      | none => none
      | some chapter =>
          match jsGet? chapter.paragraphs s.position.paragraphIndex with
          | none => none
          | some paragraph =>
              match jsGet? paragraph.words s.position.wordIndex with
              | none => none
              | some word =>
                  some { word := word
                         position := s.position
                         totalWordsInParagraph := paragraph.words.length
                         totalParagraphsInChapter := chapter.paragraphs.length
                         totalChapters := book.chapters.length
                         chapterTitle := chapter.title }

def getCurrentWord (s : EngineState) : Option ProcessedWord :=
  match s.book with
  | none => none
  | some book => wordAt book s.position

def setStatus (st : RSVPStatus) (s : EngineState) : EngineState × List REvent :=
  ({ s with status := st }, [REvent.statusChange st])

def notifyWordChange (s : EngineState) : EngineState × List REvent :=
  (s, [REvent.wordChange (getCurrentWordInfo s)])

def pauseE (s : EngineState) : EngineState × List REvent :=
  let s1 := if s.timerId ≠ none then { s with timerId := none } else s
  if s1.status = RSVPStatus.playing then setStatus RSVPStatus.paused s1 else (s1, [])

/-- `scheduleNext`: arms a fresh single-shot continuation for the current
word, or pauses at a missing word.  The computed delay only parametrizes
the timer and is not part of the engine state. -/
def scheduleNext (s : EngineState) : EngineState × List REvent :=
  if s.status ≠ RSVPStatus.playing then (s, [])
  else
    match getCurrentWord s with
    | none => pauseE s
    | some _ => ({ s with timerId := some s.nextTimer, nextTimer := s.nextTimer + 1 }, [])

def playE (s : EngineState) : EngineState × List REvent :=
  if s.status ≠ RSVPStatus.ready ∧ s.status ≠ RSVPStatus.paused then (s, [])
  else
    let (s1, e1) := setStatus RSVPStatus.playing s
    let (s2, e2) := scheduleNext s1
    (s2, e1 ++ e2)

def loadBookE (book : ProcessedBook) (s : EngineState) : EngineState × List REvent :=
  let (s1, e1) := pauseE s
  let s2 := { s1 with book := some book
                      position := { chapterIndex := 0, paragraphIndex := 0, wordIndex := 0 } }
  let (s3, e2) := setStatus RSVPStatus.ready s2
  let (s4, e3) := notifyWordChange s3
  (s4, e1 ++ e2 ++ e3)

def advanceE (s : EngineState) : EngineState × List REvent :=
  match s.book with
  | none => (s, [])
  | some book =>
      match jsGet? book.chapters s.position.chapterIndex with
      | none => (s, [])
      | some chapter =>
          match jsGet? chapter.paragraphs s.position.paragraphIndex with
          | none => (s, [])
          | some paragraph =>
              if s.position.wordIndex + 1 < (paragraph.words.length : Int) then
                ({ s with position := { s.position with wordIndex := s.position.wordIndex + 1 } }, [])
              else if s.position.paragraphIndex + 1 < (chapter.paragraphs.length : Int) then
                ({ s with position := { s.position with
                      paragraphIndex := s.position.paragraphIndex + 1
                      wordIndex := 0 } }, [])
              else if s.position.chapterIndex + 1 < (book.chapters.length : Int) then
                ({ s with position := { chapterIndex := s.position.chapterIndex + 1
                                        paragraphIndex := 0
                                        wordIndex := 0 } }, [])
              else pauseE s

/-- `retreat`: `none` models the TypeError thrown when the unguarded reads
`chapters[chapterIndex]`, `paragraphs[paragraphIndex - 1]` or
`newChapter.paragraphs[newParagraphIndex]` produce `undefined` and a field
of it is read. -/
def retreatE (s : EngineState) : Option EngineState :=
  match s.book with
  | none => some s
  | some book =>
      if 0 < s.position.wordIndex then
        some { s with position := { s.position with wordIndex := s.position.wordIndex - 1 } }
      else if 0 < s.position.paragraphIndex then
        match jsGet? book.chapters s.position.chapterIndex with
        | none => none
        | some chapter =>
            match jsGet? chapter.paragraphs (s.position.paragraphIndex - 1) with
            | none => none
            | some newParagraph =>
                some { s with position := { s.position with
                    paragraphIndex := s.position.paragraphIndex - 1
                    wordIndex := max 0 ((newParagraph.words.length : Int) - 1) } }
      else if 0 < s.position.chapterIndex then
        match jsGet? book.chapters (s.position.chapterIndex - 1) with
        | none => none
        | some newChapter =>
            let newParagraphIndex : Int := max 0 ((newChapter.paragraphs.length : Int) - 1)
            match jsGet? newChapter.paragraphs newParagraphIndex with
            | none => none
            | some newParagraph =>
                some { s with position := { chapterIndex := s.position.chapterIndex - 1
                                            paragraphIndex := newParagraphIndex
                                            wordIndex := max 0 ((newParagraph.words.length : Int) - 1) } }
      else some s

def nextWordE (s : EngineState) : EngineState × List REvent :=
  match s.book with
  | none => (s, [])
  | some _ =>
      let (s1, e1) := advanceE s
      let (s2, e2) := notifyWordChange s1
      (s2, e1 ++ e2)

def prevWordE (s : EngineState) : Option (EngineState × List REvent) :=
  match s.book with
  | none => some (s, [])
  | some _ =>
      match retreatE s with
      | none => none
      | some s1 => some (notifyWordChange s1)

/-- `restartParagraph` performs NO book check in the source. -/
def restartParagraphE (s : EngineState) : EngineState × List REvent :=
  notifyWordChange { s with position := { s.position with wordIndex := 0 } }

def goToChapterE (index : Int) (s : EngineState) : EngineState × List REvent :=
  match s.book with
  | none => (s, [])
  | some book =>
      if index < 0 ∨ (book.chapters.length : Int) ≤ index then (s, [])
      else
        notifyWordChange { s with position := { chapterIndex := index
                                                paragraphIndex := 0
                                                wordIndex := 0 } }

def nextChapterE (s : EngineState) : EngineState × List REvent :=
  match s.book with
  | none => (s, [])
  | some book =>
      let next := s.position.chapterIndex + 1
      if next < (book.chapters.length : Int) then goToChapterE next s else (s, [])

/-- `prevChapter` performs NO book check in the source (goToChapter does). -/
def prevChapterE (s : EngineState) : EngineState × List REvent :=
  let prev := s.position.chapterIndex - 1
  if 0 ≤ prev then goToChapterE prev s else (s, [])

def setViewModeE (mode : ViewMode) (s : EngineState) : EngineState × List REvent :=
  if s.viewMode = mode then (s, [])
  else
    let (s1, e1) := if mode = ViewMode.paragraph then pauseE s else (s, [])
    ({ s1 with viewMode := mode }, e1 ++ [REvent.viewModeChange mode])

def setPositionE (pos : ReadingPosition) (s : EngineState) : EngineState × List REvent :=
  match s.book with
  | none => (s, [])
  | some book =>
      if pos.chapterIndex < 0 ∨ (book.chapters.length : Int) ≤ pos.chapterIndex then (s, [])
      else
        match jsGet? book.chapters pos.chapterIndex with
        | none => (s, [])
        | some chapter =>
            if pos.paragraphIndex < 0 ∨ (chapter.paragraphs.length : Int) ≤ pos.paragraphIndex then (s, [])
            else
              match jsGet? chapter.paragraphs pos.paragraphIndex with
              | none => (s, [])
              | some paragraph =>
                  if pos.wordIndex < 0 ∨ (paragraph.words.length : Int) ≤ pos.wordIndex then (s, [])
                  else notifyWordChange { s with position := pos }

/-- The public operations claim C1 quantifies over. -/
inductive EngineOp where
  | opLoadBook : ProcessedBook → EngineOp
  | opPlay : EngineOp
  | opPause : EngineOp
  | opNextWord : EngineOp
  | opPrevWord : EngineOp
  | opRestartParagraph : EngineOp
  | opGoToChapter : Int → EngineOp
  | opNextChapter : EngineOp
  | opPrevChapter : EngineOp
  | opSetPosition : ReadingPosition → EngineOp
  | opSetViewMode : ViewMode → EngineOp

def applyOp : EngineOp → EngineState → Option (EngineState × List REvent)
  | EngineOp.opLoadBook book, s => some (loadBookE book s)
  | EngineOp.opPlay, s => some (playE s)
  | EngineOp.opPause, s => some (pauseE s)
  | EngineOp.opNextWord, s => some (nextWordE s)
  | EngineOp.opPrevWord, s => prevWordE s
  | EngineOp.opRestartParagraph, s => some (restartParagraphE s)
  | EngineOp.opGoToChapter index, s => some (goToChapterE index s)
  | EngineOp.opNextChapter, s => some (nextChapterE s)
  | EngineOp.opPrevChapter, s => some (prevChapterE s)
  | EngineOp.opSetPosition pos, s => some (setPositionE pos s)
  | EngineOp.opSetViewMode mode, s => some (setViewModeE mode s)

/-- Side condition on an operation argument: a book handed to `loadBook`
is non-degenerate. -/
def opWellFormed : EngineOp → Bool
  | EngineOp.opLoadBook book => wellFormedBook book
  | _ => true

/-! ## Basic lemmas about the embedding -/

theorem jsGet?_eq_some (l : List α) (i : Int) (h0 : 0 ≤ i)
    (h1 : i < (l.length : Int)) :
    ∃ a, jsGet? l i = some a ∧ a ∈ l := by
  have hn : i.toNat < l.length := by omega
  refine ⟨l[i.toNat], ?_, List.getElem_mem hn⟩
  simp [jsGet?, h0, List.getElem?_eq_getElem hn]

theorem jsGet?_bounds {l : List α} {i : Int} {a : α} (h : jsGet? l i = some a) :
    0 ≤ i ∧ i < (l.length : Int) := by
  unfold jsGet? at h
  split at h
  · next h0 =>
    obtain ⟨hlt, -⟩ := List.getElem?_eq_some.mp h
    omega
  · exact absurd h (by simp)

theorem jsGet?_mem {l : List α} {i : Int} {a : α} (h : jsGet? l i = some a) :
    a ∈ l := by
  unfold jsGet? at h
  split at h
  · obtain ⟨hlt, hget⟩ := List.getElem?_eq_some.mp h
    exact hget ▸ List.getElem_mem hlt
  · exact absurd h (by simp)

theorem validPos_iff {book : ProcessedBook} {pos : ReadingPosition} :
    validPos book pos = true ↔
      ∃ chapter paragraph word,
        jsGet? book.chapters pos.chapterIndex = some chapter ∧
        jsGet? chapter.paragraphs pos.paragraphIndex = some paragraph ∧
        jsGet? paragraph.words pos.wordIndex = some word := by
  unfold validPos wordAt
  cases hc : jsGet? book.chapters pos.chapterIndex with
  | none => simp [hc]
  | some chapter =>
    cases hp : jsGet? chapter.paragraphs pos.paragraphIndex with
    | none => simp [hc, hp]
    | some paragraph =>
      cases hw : jsGet? paragraph.words pos.wordIndex with
      | none => simp [hc, hp, hw]
      | some word => simp [hc, hp, hw]

theorem wf_chapters_ne_nil {book : ProcessedBook} (h : wellFormedBook book = true) :
    book.chapters ≠ [] := by
  unfold wellFormedBook at h
  simp only [Bool.and_eq_true, Bool.not_eq_true'] at h
  simpa using h.1

theorem wf_paragraphs_ne_nil {book : ProcessedBook} {chapter : Chapter}
    (h : wellFormedBook book = true) (hc : chapter ∈ book.chapters) :
    chapter.paragraphs ≠ [] := by
  unfold wellFormedBook at h
  simp only [Bool.and_eq_true, List.all_eq_true] at h
  have := (h.2 chapter hc)
  simp only [Bool.and_eq_true, Bool.not_eq_true'] at this
  simpa using this.1

theorem wf_words_ne_nil {book : ProcessedBook} {chapter : Chapter} {paragraph : Paragraph}
    (h : wellFormedBook book = true) (hc : chapter ∈ book.chapters)
    (hp : paragraph ∈ chapter.paragraphs) :
    paragraph.words ≠ [] := by
  unfold wellFormedBook at h
  simp only [Bool.and_eq_true, List.all_eq_true] at h
  have := (h.2 chapter hc)
  simp only [Bool.and_eq_true, List.all_eq_true, Bool.not_eq_true'] at this
  have := this.2 paragraph hp
  simpa using this

/-- A chapter jump target `⟨i, 0, 0⟩` is valid in a non-degenerate book. -/
theorem validPos_chapter_start {book : ProcessedBook} {i : Int}
    (h : wellFormedBook book = true) (h0 : 0 ≤ i)
    (h1 : i < (book.chapters.length : Int)) :
    validPos book { chapterIndex := i, paragraphIndex := 0, wordIndex := 0 } = true := by
  obtain ⟨chapter, hc, hcm⟩ := jsGet?_eq_some book.chapters i h0 h1
  have hpne := wf_paragraphs_ne_nil h hcm
  have hplen : (0 : Int) < (chapter.paragraphs.length : Int) := by
    have := List.length_pos.mpr hpne
    omega
  obtain ⟨paragraph, hp, hpm⟩ := jsGet?_eq_some chapter.paragraphs 0 le_rfl hplen
  have hwne := wf_words_ne_nil h hcm hpm
  have hwlen : (0 : Int) < (paragraph.words.length : Int) := by
    have := List.length_pos.mpr hwne
    omega
  obtain ⟨word, hw, _⟩ := jsGet?_eq_some paragraph.words 0 le_rfl hwlen
  exact validPos_iff.mpr ⟨chapter, paragraph, word, hc, hp, hw⟩

theorem validPos_zero {book : ProcessedBook} (h : wellFormedBook book = true) :
    validPos book { chapterIndex := 0, paragraphIndex := 0, wordIndex := 0 } = true := by
  have hne := wf_chapters_ne_nil h
  have : (0 : Int) < (book.chapters.length : Int) := by
    have := List.length_pos.mpr hne
    omega
  exact validPos_chapter_start h le_rfl this

/-! ## Field-preservation lemmas for the status operations -/

theorem pauseE_fst (s : EngineState) :
    (pauseE s).fst.book = s.book ∧ (pauseE s).fst.position = s.position ∧
      (pauseE s).fst.timerId = none := by
  unfold pauseE setStatus
  by_cases ht : s.timerId = none <;>
    by_cases hs : s.status = RSVPStatus.playing <;>
      simp [ht, hs]

theorem scheduleNext_fst (s : EngineState) :
    (scheduleNext s).fst.book = s.book ∧ (scheduleNext s).fst.position = s.position := by
  unfold scheduleNext
  split
  · exact ⟨rfl, rfl⟩
  · split
    · exact ⟨(pauseE_fst s).1, (pauseE_fst s).2.1⟩
    · exact ⟨rfl, rfl⟩

theorem playE_fst (s : EngineState) :
    (playE s).fst.book = s.book ∧ (playE s).fst.position = s.position := by
  unfold playE setStatus
  split
  · exact ⟨rfl, rfl⟩
  · have h := scheduleNext_fst { s with status := RSVPStatus.playing }
    simpa using h

theorem setViewModeE_fst (mode : ViewMode) (s : EngineState) :
    (setViewModeE mode s).fst.book = s.book ∧
      (setViewModeE mode s).fst.position = s.position := by
  have h1 := pauseE_fst s
  by_cases hv : s.viewMode = mode
  · simp [setViewModeE, hv]
  · by_cases hm : mode = ViewMode.paragraph
    · subst hm
      simp [setViewModeE, hv, h1.1, h1.2.1]
    · simp [setViewModeE, hv, hm]

/-! ## Validity preservation, operation by operation -/

theorem advanceE_valid {s : EngineState} {b : ProcessedBook}
    (hb : s.book = some b) (hwf : wellFormedBook b = true)
    (hv : validPos b s.position = true) :
    (advanceE s).fst.book = some b ∧ validPos b (advanceE s).fst.position = true := by
  obtain ⟨chapter, paragraph, word, hc, hp, hw⟩ := validPos_iff.mp hv
  have hcb := jsGet?_bounds hc
  have hpb := jsGet?_bounds hp
  have hwb := jsGet?_bounds hw
  unfold advanceE
  simp only [hb, hc, hp]
  split
  · next hlt =>
    obtain ⟨w1, hw1, -⟩ :=
      jsGet?_eq_some paragraph.words (s.position.wordIndex + 1) (by omega) hlt
    exact ⟨rfl, validPos_iff.mpr ⟨chapter, paragraph, w1, hc, hp, hw1⟩⟩
  · split
    · next hlt =>
      obtain ⟨p1, hp1, hp1m⟩ :=
        jsGet?_eq_some chapter.paragraphs (s.position.paragraphIndex + 1) (by omega) hlt
      have hwne := wf_words_ne_nil hwf (jsGet?_mem hc) hp1m
      have hwlen : (0 : Int) < (p1.words.length : Int) := by
        have := List.length_pos.mpr hwne
        omega
      obtain ⟨w1, hw1, -⟩ := jsGet?_eq_some p1.words 0 le_rfl hwlen
      exact ⟨rfl, validPos_iff.mpr ⟨chapter, p1, w1, hc, hp1, hw1⟩⟩
    · split
      · next hlt =>
        exact ⟨rfl, validPos_chapter_start hwf (by omega) hlt⟩
      · have h1 := pauseE_fst s
        rw [h1.1, h1.2.1]
        exact ⟨hb, hv⟩

theorem retreatE_valid {s : EngineState} {b : ProcessedBook}
    (hb : s.book = some b) (hwf : wellFormedBook b = true)
    (hv : validPos b s.position = true) :
    ∃ s1, retreatE s = some s1 ∧ s1.book = some b ∧ validPos b s1.position = true := by
  obtain ⟨chapter, paragraph, word, hc, hp, hw⟩ := validPos_iff.mp hv
  have hcb := jsGet?_bounds hc
  have hpb := jsGet?_bounds hp
  have hwb := jsGet?_bounds hw
  unfold retreatE
  simp only [hb]
  split
  · next hwi =>
    obtain ⟨w1, hw1, -⟩ :=
      jsGet?_eq_some paragraph.words (s.position.wordIndex - 1) (by omega) (by omega)
    exact ⟨_, rfl, rfl, validPos_iff.mpr ⟨chapter, paragraph, w1, hc, hp, hw1⟩⟩
  · split
    · next hpi =>
      obtain ⟨p1, hp1, hp1m⟩ :=
        jsGet?_eq_some chapter.paragraphs (s.position.paragraphIndex - 1) (by omega) (by omega)
      simp only [hc, hp1]
      have hwne := wf_words_ne_nil hwf (jsGet?_mem hc) hp1m
      have hwlen : (0 : Int) < (p1.words.length : Int) := by
        have := List.length_pos.mpr hwne
        omega
      have hmax : max 0 ((p1.words.length : Int) - 1) = (p1.words.length : Int) - 1 :=
        max_eq_right (by omega)
      obtain ⟨w1, hw1, -⟩ :=
        jsGet?_eq_some p1.words (max 0 ((p1.words.length : Int) - 1)) (le_max_left _ _)
          (by omega)
      exact ⟨_, rfl, rfl, validPos_iff.mpr ⟨chapter, p1, w1, hc, hp1, hw1⟩⟩
    · split
      · next hci =>
        obtain ⟨c1, hc1, hc1m⟩ :=
          jsGet?_eq_some b.chapters (s.position.chapterIndex - 1) (by omega) (by omega)
        simp only [hc1]
        have hpne := wf_paragraphs_ne_nil hwf hc1m
        have hplen : (0 : Int) < (c1.paragraphs.length : Int) := by
          have := List.length_pos.mpr hpne
          omega
        obtain ⟨p1, hp1, hp1m⟩ :=
          jsGet?_eq_some c1.paragraphs (max 0 ((c1.paragraphs.length : Int) - 1))
            (le_max_left _ _) (by omega)
        simp only [hp1]
        have hwne := wf_words_ne_nil hwf hc1m hp1m
        have hwlen : (0 : Int) < (p1.words.length : Int) := by
          have := List.length_pos.mpr hwne
          omega
        obtain ⟨w1, hw1, -⟩ :=
          jsGet?_eq_some p1.words (max 0 ((p1.words.length : Int) - 1)) (le_max_left _ _)
            (by omega)
        exact ⟨_, rfl, rfl, validPos_iff.mpr ⟨c1, p1, w1, hc1, hp1, hw1⟩⟩
      · exact ⟨s, rfl, hb, hv⟩

theorem restartParagraphE_valid {s : EngineState} {b : ProcessedBook}
    (hb : s.book = some b) (hv : validPos b s.position = true) :
    (restartParagraphE s).fst.book = some b ∧
      validPos b (restartParagraphE s).fst.position = true := by
  obtain ⟨chapter, paragraph, word, hc, hp, hw⟩ := validPos_iff.mp hv
  have hwb := jsGet?_bounds hw
  have hwlen : (0 : Int) < (paragraph.words.length : Int) := by omega
  obtain ⟨w0, hw0, -⟩ := jsGet?_eq_some paragraph.words 0 le_rfl hwlen
  exact ⟨hb, validPos_iff.mpr ⟨chapter, paragraph, w0, hc, hp, hw0⟩⟩

theorem goToChapterE_valid {s : EngineState} {b : ProcessedBook} (index : Int)
    (hb : s.book = some b) (hwf : wellFormedBook b = true)
    (hv : validPos b s.position = true) :
    (goToChapterE index s).fst.book = some b ∧
      validPos b (goToChapterE index s).fst.position = true := by
  unfold goToChapterE
  simp only [hb]
  split
  · exact ⟨hb, hv⟩
  · next hr =>
    push_neg at hr
    exact ⟨rfl, validPos_chapter_start hwf hr.1 (by omega)⟩

theorem nextChapterE_valid {s : EngineState} {b : ProcessedBook}
    (hb : s.book = some b) (hwf : wellFormedBook b = true)
    (hv : validPos b s.position = true) :
    (nextChapterE s).fst.book = some b ∧
      validPos b (nextChapterE s).fst.position = true := by
  unfold nextChapterE
  simp only [hb]
  split
  · exact goToChapterE_valid _ hb hwf hv
  · exact ⟨hb, hv⟩

theorem prevChapterE_valid {s : EngineState} {b : ProcessedBook}
    (hb : s.book = some b) (hwf : wellFormedBook b = true)
    (hv : validPos b s.position = true) :
    (prevChapterE s).fst.book = some b ∧
      validPos b (prevChapterE s).fst.position = true := by
  unfold prevChapterE
  by_cases hp : 0 ≤ s.position.chapterIndex - 1
  · simpa [hp] using goToChapterE_valid (s.position.chapterIndex - 1) hb hwf hv
  · simp only [hp, if_false]
    exact ⟨hb, hv⟩

theorem setPositionE_valid {s : EngineState} {b : ProcessedBook} (pos : ReadingPosition)
    (hb : s.book = some b) (hv : validPos b s.position = true) :
    (setPositionE pos s).fst.book = some b ∧
      validPos b (setPositionE pos s).fst.position = true := by
  unfold setPositionE
  simp only [hb]
  split
  · exact ⟨hb, hv⟩
  · next hci =>
    split
    · exact ⟨hb, hv⟩
    · next chapter hc =>
      split
      · exact ⟨hb, hv⟩
      · next hpi =>
        split
        · exact ⟨hb, hv⟩
        · next paragraph hp =>
          split
          · exact ⟨hb, hv⟩
          · next hwi =>
            push_neg at hwi
            obtain ⟨w, hw, -⟩ := jsGet?_eq_some paragraph.words pos.wordIndex hwi.1 (by omega)
            exact ⟨rfl, validPos_iff.mpr ⟨chapter, paragraph, w, hc, hp, hw⟩⟩

theorem loadBookE_valid (book : ProcessedBook) (s : EngineState)
    (hwf : wellFormedBook book = true) :
    (loadBookE book s).fst.book = some book ∧
      validPos book (loadBookE book s).fst.position = true := by
  unfold loadBookE notifyWordChange setStatus
  rcases hp : pauseE s with ⟨s1, e1⟩
  simp only [hp]
  exact ⟨trivial, validPos_zero hwf⟩

theorem nextWordE_valid {s : EngineState} {b : ProcessedBook}
    (hb : s.book = some b) (hwf : wellFormedBook b = true)
    (hv : validPos b s.position = true) :
    (nextWordE s).fst.book = some b ∧ validPos b (nextWordE s).fst.position = true := by
  have h1 := advanceE_valid hb hwf hv
  unfold nextWordE notifyWordChange
  rcases ha : advanceE s with ⟨s1, e1⟩
  rw [ha] at h1
  simp only [hb, ha]
  exact h1

theorem prevWordE_valid {s : EngineState} {b : ProcessedBook}
    (hb : s.book = some b) (hwf : wellFormedBook b = true)
    (hv : validPos b s.position = true) :
    ∃ s1 evs, prevWordE s = some (s1, evs) ∧ s1.book = some b ∧
      validPos b s1.position = true := by
  obtain ⟨s1, hret, hbook, hval⟩ := retreatE_valid hb hwf hv
  refine ⟨s1, [REvent.wordChange (getCurrentWordInfo s1)], ?_, hbook, hval⟩
  unfold prevWordE notifyWordChange
  simp only [hb, hret]

/-- Claim C1 (amended form): in a non-degenerate loaded book (every chapter
has at least one paragraph, every paragraph at least one word; a book handed
to loadBook likewise), every public operation maps a valid position to a
valid position for the then-loaded book, and none of them throws. -/
theorem c1_navigation_preserves_validity (op : EngineOp) (s : EngineState)
    (b : ProcessedBook) (hb : s.book = some b) (hwf : wellFormedBook b = true)
    (hv : validPos b s.position = true) (hop : opWellFormed op = true) :
    ∃ s1 evs b1, applyOp op s = some (s1, evs) ∧ s1.book = some b1 ∧
      validPos b1 s1.position = true := by
  cases op with
  | opLoadBook book =>
      have hwf1 : wellFormedBook book = true := by simpa [opWellFormed] using hop
      have h := loadBookE_valid book s hwf1
      exact ⟨(loadBookE book s).fst, (loadBookE book s).snd, book, by simp [applyOp], h.1, h.2⟩
  | opPlay =>
      have h := playE_fst s
      refine ⟨(playE s).fst, (playE s).snd, b, by simp [applyOp], ?_, ?_⟩
      · rw [h.1, hb]
      · rw [h.2]
        exact hv
  | opPause =>
      have h := pauseE_fst s
      refine ⟨(pauseE s).fst, (pauseE s).snd, b, by simp [applyOp], ?_, ?_⟩
      · rw [h.1, hb]
      · rw [h.2.1]
        exact hv
  | opNextWord =>
      have h := nextWordE_valid hb hwf hv
      exact ⟨(nextWordE s).fst, (nextWordE s).snd, b, by simp [applyOp], h.1, h.2⟩
  | opPrevWord =>
      obtain ⟨s1, evs, hpw, hbook, hval⟩ := prevWordE_valid hb hwf hv
      exact ⟨s1, evs, b, by simpa [applyOp] using hpw, hbook, hval⟩
  | opRestartParagraph =>
      have h := restartParagraphE_valid hb hv
      exact ⟨(restartParagraphE s).fst, (restartParagraphE s).snd, b,
        by simp [applyOp], h.1, h.2⟩
  | opGoToChapter index =>
      have h := goToChapterE_valid index hb hwf hv
      exact ⟨(goToChapterE index s).fst, (goToChapterE index s).snd, b,
        by simp [applyOp], h.1, h.2⟩
  | opNextChapter =>
      have h := nextChapterE_valid hb hwf hv
      exact ⟨(nextChapterE s).fst, (nextChapterE s).snd, b, by simp [applyOp], h.1, h.2⟩
  | opPrevChapter =>
      have h := prevChapterE_valid hb hwf hv
      exact ⟨(prevChapterE s).fst, (prevChapterE s).snd, b, by simp [applyOp], h.1, h.2⟩
  | opSetPosition pos =>
      have h := setPositionE_valid pos hb hv
      exact ⟨(setPositionE pos s).fst, (setPositionE pos s).snd, b,
        by simp [applyOp], h.1, h.2⟩
  | opSetViewMode mode =>
      have h := setViewModeE_fst mode s
      refine ⟨(setViewModeE mode s).fst, (setViewModeE mode s).snd, b,
        by simp [applyOp], ?_, ?_⟩
      · rw [h.1, hb]
      · rw [h.2]
        exact hv

/-! ## Concrete fixtures used by the counterexamples and witnesses -/

def sampleWord : ProcessedWord := { text := ['w'], orpIndex := 0, delay := 0 }

def sampleParagraph : Paragraph := { words := [sampleWord], sourceElement := "p" }

def textChapter : Chapter := { index := 0, title := "", paragraphs := [sampleParagraph] }

def emptyChapter : Chapter := { index := 1, title := "", paragraphs := [] }

/-- A one-chapter, one-paragraph, one-word book. -/
def wellBook : ProcessedBook := { title := "", author := "", chapters := [textChapter] }

/-- A book whose second chapter has zero paragraphs. -/
def bookWithEmptyChapter : ProcessedBook :=
  { title := "", author := "", chapters := [textChapter, emptyChapter] }

/-- A book whose FIRST chapter has zero paragraphs (the second has text). -/
def bookEmptyFirstChapter : ProcessedBook :=
  { title := "", author := "",
    chapters := [{ index := 0, title := "", paragraphs := [] }, textChapter] }

/-- A single-chapter book with exactly one empty chapter. -/
def bookOneEmptyChapter : ProcessedBook :=
  { title := "", author := "", chapters := [{ index := 0, title := "", paragraphs := [] }] }

/-- A book with one two-word paragraph. -/
def bookTwoWords : ProcessedBook :=
  { title := "", author := "",
    chapters := [{ index := 0, title := "",
                   paragraphs := [{ words := [sampleWord, sampleWord], sourceElement := "p" }] }] }

def stateW : EngineState :=
  { status := RSVPStatus.ready
    position := { chapterIndex := 0, paragraphIndex := 0, wordIndex := 0 }
    wpm := 300
    book := some wellBook
    viewMode := ViewMode.rsvp
    timerId := none
    nextTimer := 0 }

def stateC1 : EngineState :=
  { status := RSVPStatus.ready
    position := { chapterIndex := 0, paragraphIndex := 0, wordIndex := 0 }
    wpm := 300
    book := some bookWithEmptyChapter
    viewMode := ViewMode.rsvp
    timerId := none
    nextTimer := 0 }

def stateC3 : EngineState :=
  { status := RSVPStatus.paused
    position := { chapterIndex := 1, paragraphIndex := 0, wordIndex := 0 }
    wpm := 300
    book := some bookEmptyFirstChapter
    viewMode := ViewMode.rsvp
    timerId := none
    nextTimer := 0 }

/-- Engine mid-playback with an armed continuation (timer handle 0). -/
def statePlaying : EngineState :=
  { status := RSVPStatus.playing
    position := { chapterIndex := 0, paragraphIndex := 0, wordIndex := 0 }
    wpm := 300
    book := some bookTwoWords
    viewMode := ViewMode.rsvp
    timerId := some 0
    nextTimer := 1 }

/-- Claim C1 counterexample: with a valid position in a book whose chapter 1
has zero paragraphs, goToChapter(1) moves to position (1,0,0), which violates
the validity invariant; so as stated over books with possibly-empty chapters
the claim is false. -/
theorem c1_counterexample :
    validPos bookWithEmptyChapter stateC1.position = true ∧
    (goToChapterE 1 stateC1).fst.position ≠ stateC1.position ∧
    (goToChapterE 1 stateC1).fst.position =
      { chapterIndex := 1, paragraphIndex := 0, wordIndex := 0 } ∧
    validPos bookWithEmptyChapter
      { chapterIndex := 1, paragraphIndex := 0, wordIndex := 0 } = false := by
  decide

/-- Claim C1 witness: the amended theorem applied to nextWord on a concrete
non-degenerate book with a valid position. -/
theorem c1_witness :
    stateW.book = some wellBook ∧ wellFormedBook wellBook = true ∧
    validPos wellBook stateW.position = true ∧
    opWellFormed EngineOp.opNextWord = true ∧
    (∃ s1 evs b1, applyOp EngineOp.opNextWord stateW = some (s1, evs) ∧
      s1.book = some b1 ∧ validPos b1 s1.position = true) :=
  ⟨rfl, by decide, by decide, rfl,
    c1_navigation_preserves_validity EngineOp.opNextWord stateW wellBook rfl
      (by decide) (by decide) rfl⟩

/-- Claim C3: at the concrete valid position (1,0,0) of a book whose chapter 0
has zero paragraphs, prevWord throws (reads `.words` of `undefined`), modelled
as `none`; the spec requires no throwing error paths in navigation. -/
theorem c3_prevWord_throws :
    validPos bookEmptyFirstChapter stateC3.position = true ∧
    prevWordE stateC3 = none := by
  decide

/-- Claim C6: setPosition with any out-of-range component leaves the whole
engine state unchanged and fires no notification. -/
theorem c6_setPosition_invalid_noop (s : EngineState) (b : ProcessedBook)
    (pos : ReadingPosition) (hb : s.book = some b) (hv : validPos b pos = false) :
    setPositionE pos s = (s, []) := by
  unfold setPositionE
  simp only [hb]
  split
  · rfl
  · next hci =>
    push_neg at hci
    split
    · rfl
    · next chapter hc =>
      split
      · rfl
      · next hpi =>
        push_neg at hpi
        split
        · rfl
        · next paragraph hp =>
          split
          · rfl
          · next hwi =>
            push_neg at hwi
            obtain ⟨w, hw, -⟩ :=
              jsGet?_eq_some paragraph.words pos.wordIndex hwi.1 (by omega)
            have hvt : validPos b pos = true :=
              validPos_iff.mpr ⟨chapter, paragraph, w, hc, hp, hw⟩
            rw [hvt] at hv
            cases hv

/-- Claim C6 witness: a wordIndex equal to the word count is rejected with
no state change and no events. -/
theorem c6_witness :
    validPos wellBook
      { chapterIndex := 0, paragraphIndex := 0, wordIndex := 1 } = false ∧
    setPositionE { chapterIndex := 0, paragraphIndex := 0, wordIndex := 1 } stateW =
      (stateW, []) :=
  ⟨by decide,
    c6_setPosition_invalid_noop stateW wellBook
      { chapterIndex := 0, paragraphIndex := 0, wordIndex := 1 } rfl (by decide)⟩

theorem position_set_wordIndex_self (p : ReadingPosition) (h : p.wordIndex = 0) :
    ({ p with wordIndex := 0 } : ReadingPosition) = p := by
  cases p
  simp_all

/-- Claim C7 (amended): with no book loaded, nextWord, prevWord, goToChapter
and setPosition are strict no-ops (no state change, no notification, no
throw); restartParagraph leaves the state unchanged whenever wordIndex is
already 0 (true in every reachable idle state) but DOES fire one word-change
notification with an absent payload. -/
theorem c7_idle_nav_noop (s : EngineState) (hb : s.book = none) :
    (∀ index, goToChapterE index s = (s, [])) ∧
    nextWordE s = (s, []) ∧
    prevWordE s = some (s, []) ∧
    (∀ pos, setPositionE pos s = (s, [])) ∧
    (s.position.wordIndex = 0 →
      restartParagraphE s = (s, [REvent.wordChange none])) := by
  refine ⟨?_, ?_, ?_, ?_, ?_⟩
  · intro index
    unfold goToChapterE
    simp [hb]
  · unfold nextWordE
    simp [hb]
  · unfold prevWordE
    simp [hb]
  · intro pos
    unfold setPositionE
    simp [hb]
  · intro hw0
    unfold restartParagraphE
    rw [position_set_wordIndex_self s.position hw0]
    show notifyWordChange s = (s, [REvent.wordChange none])
    unfold notifyWordChange getCurrentWordInfo
    simp only [hb]

/-- Claim C7 counterexample: in the freshly created engine (idle, no book),
restartParagraph is NOT notification-free: it fires a word-change event with
an absent payload, refuting the claim that every navigation request fires no
notification. -/
theorem c7_counterexample :
    initialEngine.book = none ∧
    restartParagraphE initialEngine = (initialEngine, [REvent.wordChange none]) ∧
    (restartParagraphE initialEngine).snd ≠ [] := by
  decide

/-- Claim C7 witness: the amended theorem applied to the initial engine. -/
theorem c7_witness :
    initialEngine.book = none ∧
    ((∀ index, goToChapterE index initialEngine = (initialEngine, [])) ∧
      nextWordE initialEngine = (initialEngine, []) ∧
      prevWordE initialEngine = some (initialEngine, []) ∧
      (∀ pos, setPositionE pos initialEngine = (initialEngine, [])) ∧
      (initialEngine.position.wordIndex = 0 →
        restartParagraphE initialEngine = (initialEngine, [REvent.wordChange none]))) :=
  ⟨rfl, c7_idle_nav_noop initialEngine rfl⟩

theorem retreatE_timerId {s s1 : EngineState} (h : retreatE s = some s1) :
    s1.timerId = s.timerId := by
  unfold retreatE at h
  dsimp only at h
  repeat' split at h
  all_goals
    first
      | (injection h with h; subst h; rfl)
      | injection h

theorem advanceE_timerId (s : EngineState) :
    (advanceE s).fst.timerId = s.timerId ∨ (advanceE s).fst.timerId = none := by
  unfold advanceE
  repeat' split
  all_goals
    first
      | (left; rfl)
      | (right; exact (pauseE_fst _).2.2)

/-- Claim C2 (amended): pause() always cancels the outstanding scheduled
continuation (the timer handle is cleared), but the direct navigation
operations do NOT cancel it: goToChapter, setPosition, restartParagraph and
prevWord leave the timer handle exactly as it was, and nextWord leaves it
unchanged except when advancing hits end-of-book, where the forced pause
clears it. -/
theorem c2_cancellation (s : EngineState) :
    (pauseE s).fst.timerId = none ∧
    (∀ index, (goToChapterE index s).fst.timerId = s.timerId) ∧
    (∀ pos, (setPositionE pos s).fst.timerId = s.timerId) ∧
    (restartParagraphE s).fst.timerId = s.timerId ∧
    (∀ s1 evs, prevWordE s = some (s1, evs) → s1.timerId = s.timerId) ∧
    ((nextWordE s).fst.timerId = s.timerId ∨ (nextWordE s).fst.timerId = none) := by
  refine ⟨(pauseE_fst s).2.2, ?_, ?_, rfl, ?_, ?_⟩
  · intro index
    unfold goToChapterE notifyWordChange
    repeat' split
    all_goals rfl
  · intro pos
    unfold setPositionE notifyWordChange
    repeat' split
    all_goals rfl
  · intro s1 evs h
    unfold prevWordE at h
    split at h
    · injection h with h
      have hfst := congrArg Prod.fst h
      simp only at hfst
      rw [← hfst]
    · split at h
      · cases h
      · next s2 hr =>
        injection h with h
        have hfst := congrArg Prod.fst h
        simp only [notifyWordChange] at hfst
        rw [← hfst]
        exact retreatE_timerId hr
  · unfold nextWordE
    split
    · left
      rfl
    · rcases ha : advanceE s with ⟨s1, e1⟩
      have h2 := advanceE_timerId s
      rw [ha] at h2
      simp only [ha, notifyWordChange]
      exact h2

/-- Claim C2 counterexample: while playing with an outstanding continuation
(timer handle 0), nextWord does NOT cancel it: the same handle is still
pending after the call, refuting that navigation cancels the continuation
before anything else. -/
theorem c2_counterexample :
    statePlaying.status = RSVPStatus.playing ∧
    statePlaying.timerId = some 0 ∧
    (nextWordE statePlaying).fst.timerId = some 0 ∧
    (nextWordE statePlaying).fst.position ≠ statePlaying.position := by
  decide

/-- Claim C2 witness: the amended theorem applied to the concrete playing
state, with the prevWord hypothesis discharged at its actual result. -/
theorem c2_witness :
    (pauseE statePlaying).fst.timerId = none ∧
    (goToChapterE 0 statePlaying).fst.timerId = statePlaying.timerId ∧
    (setPositionE { chapterIndex := 0, paragraphIndex := 0, wordIndex := 0 }
        statePlaying).fst.timerId = statePlaying.timerId ∧
    statePlaying.timerId = statePlaying.timerId :=
  ⟨(c2_cancellation statePlaying).1,
   (c2_cancellation statePlaying).2.1 0,
   (c2_cancellation statePlaying).2.2.1
     { chapterIndex := 0, paragraphIndex := 0, wordIndex := 0 },
   (c2_cancellation statePlaying).2.2.2.2.1 statePlaying
     [REvent.wordChange (getCurrentWordInfo statePlaying)] (by decide)⟩

/-! ## Clamp lemmas (claim C4) -/

theorem jsGet?_natCast (l : List α) (n : Nat) : jsGet? l (n : Int) = l[n]? := by
  simp [jsGet?]

theorem clamp0_int_bounds (x : Int) (n : Nat) (hn : 0 < n) :
    0 ≤ max 0 (min x ((n : Int) - 1)) ∧ max 0 (min x ((n : Int) - 1)) < (n : Int) := by
  refine ⟨le_max_left _ _, ?_⟩
  have h2 : min x ((n : Int) - 1) ≤ (n : Int) - 1 := min_le_right _ _
  have h3 : max 0 (min x ((n : Int) - 1)) ≤ (n : Int) - 1 := max_le (by omega) h2
  omega

theorem clamp_int_bounds (x : Int) (n : Nat) (hn : 0 < n) :
    0 ≤ max 0 (min x (max 0 ((n : Int) - 1))) ∧
      max 0 (min x (max 0 ((n : Int) - 1))) < (n : Int) := by
  have h1 : max 0 ((n : Int) - 1) = (n : Int) - 1 := max_eq_right (by omega)
  rw [h1]
  exact clamp0_int_bounds x n hn

theorem walkBack_le (chapters : List Chapter) (n : Nat) : walkBack chapters n ≤ n := by
  induction n with
  | zero => simp [walkBack]
  | succ n ih =>
    unfold walkBack
    cases hc : chapters[n + 1]? with
    | none => dsimp only; exact le_rfl
    | some chapter =>
      dsimp only
      by_cases hemp : chapter.paragraphs.length = 0
      · rw [if_pos hemp]
        exact le_trans ih (Nat.le_succ n)
      · rw [if_neg hemp]

theorem walkBack_finds (chapters : List Chapter) (c0 : Chapter)
    (h0 : chapters[0]? = some c0) (h0p : c0.paragraphs ≠ []) (n : Nat)
    (hn : n < chapters.length) :
    ∃ chapter, chapters[walkBack chapters n]? = some chapter ∧
      chapter.paragraphs ≠ [] := by
  induction n with
  | zero => exact ⟨c0, by simpa [walkBack] using h0, h0p⟩
  | succ n ih =>
    unfold walkBack
    cases hc : chapters[n + 1]? with
    | none =>
      rw [List.getElem?_eq_getElem hn] at hc
      cases hc
    | some chapter =>
      dsimp only
      by_cases hemp : chapter.paragraphs.length = 0
      · rw [if_pos hemp]
        exact ih (by omega)
      · rw [if_neg hemp]
        refine ⟨chapter, hc, ?_⟩
        intro habs
        exact hemp (by rw [habs]; rfl)

/-- Books on which clampPosition is total and lands on a valid position:
the first chapter exists and has at least one paragraph, and every
paragraph of the book has at least one word (chapters other than the first
may still be empty: the walk-back skips them). -/
def clampSafeBook (book : ProcessedBook) : Bool :=
  (match book.chapters[0]? with
   | some c0 => !c0.paragraphs.isEmpty
   | none => false) &&
  book.chapters.all fun chapter =>
    chapter.paragraphs.all fun paragraph => !paragraph.words.isEmpty

/-- Claim C4 (amended): for every book whose first chapter exists and has at
least one paragraph and in which every paragraph has at least one word,
clampPosition never fails and returns a position satisfying the validity
invariant, for every position with arbitrary integer components. -/
theorem c4_clamp_valid (book : ProcessedBook) (pos : ReadingPosition)
    (hsafe : clampSafeBook book = true) :
    ∃ q, clampPosition book pos = some q ∧ validPos book q = true := by
  unfold clampSafeBook at hsafe
  rw [Bool.and_eq_true] at hsafe
  obtain ⟨h0, hwords⟩ := hsafe
  rw [List.all_eq_true] at hwords
  cases hc0 : book.chapters[0]? with
  | none => rw [hc0] at h0; cases h0
  | some c0 =>
    rw [hc0] at h0
    have hc0p : c0.paragraphs ≠ [] := by simpa using h0
    obtain ⟨h0lt, -⟩ := List.getElem?_eq_some.mp hc0
    have hb0 := clamp0_int_bounds pos.chapterIndex book.chapters.length h0lt
    obtain ⟨cA, hcA, -⟩ :=
      jsGet?_eq_some book.chapters
        (max 0 (min pos.chapterIndex ((book.chapters.length : Int) - 1))) hb0.1 hb0.2
    have hwn : (max 0 (min pos.chapterIndex ((book.chapters.length : Int) - 1))).toNat <
        book.chapters.length := by omega
    obtain ⟨chapter, hch, hchp⟩ := walkBack_finds book.chapters c0 hc0 hc0p _ hwn
    have hchmem : chapter ∈ book.chapters := by
      obtain ⟨hlt2, heq2⟩ := List.getElem?_eq_some.mp hch
      exact heq2 ▸ List.getElem_mem hlt2
    have hplen : 0 < chapter.paragraphs.length := List.length_pos.mpr hchp
    have hbp := clamp_int_bounds pos.paragraphIndex chapter.paragraphs.length hplen
    obtain ⟨paragraph, hpg, hpgmem⟩ :=
      jsGet?_eq_some chapter.paragraphs
        (max 0 (min pos.paragraphIndex (max 0 ((chapter.paragraphs.length : Int) - 1))))
        hbp.1 hbp.2
    have hwordsne : paragraph.words ≠ [] := by
      have h1 := hwords chapter hchmem
      rw [List.all_eq_true] at h1
      simpa using h1 paragraph hpgmem
    have hwlen : 0 < paragraph.words.length := List.length_pos.mpr hwordsne
    have hbw := clamp_int_bounds pos.wordIndex paragraph.words.length hwlen
    obtain ⟨word, hwd, -⟩ :=
      jsGet?_eq_some paragraph.words
        (max 0 (min pos.wordIndex (max 0 ((paragraph.words.length : Int) - 1))))
        hbw.1 hbw.2
    refine ⟨⟨(walkBack book.chapters
          (max 0 (min pos.chapterIndex ((book.chapters.length : Int) - 1))).toNat : Int),
        max 0 (min pos.paragraphIndex (max 0 ((chapter.paragraphs.length : Int) - 1))),
        max 0 (min pos.wordIndex (max 0 ((paragraph.words.length : Int) - 1)))⟩, ?_, ?_⟩
    · unfold clampPosition
      dsimp only
      simp only [hcA, hch, hpg]
    · apply validPos_iff.mpr
      refine ⟨chapter, paragraph, word, ?_, hpg, hwd⟩
      rw [jsGet?_natCast]
      exact hch

/-- Claim C4 counterexample: a book with a single chapter that has zero
paragraphs.  clampPosition returns (0,0,0) — it does not fail — but that
position violates the validity invariant (paragraphIndex 0 is not below the
paragraph count 0), so the claim as stated over all books is false. -/
theorem c4_counterexample :
    clampPosition bookOneEmptyChapter
        { chapterIndex := 0, paragraphIndex := 0, wordIndex := 0 } =
      some { chapterIndex := 0, paragraphIndex := 0, wordIndex := 0 } ∧
    validPos bookOneEmptyChapter
      { chapterIndex := 0, paragraphIndex := 0, wordIndex := 0 } = false := by
  decide

/-- Claim C4 witness: the amended theorem applied to a badly out-of-range
persisted position against a concrete safe book. -/
theorem c4_witness :
    clampSafeBook wellBook = true ∧
    (∃ q, clampPosition wellBook
        { chapterIndex := 5, paragraphIndex := -2, wordIndex := 99 } = some q ∧
      validPos wellBook q = true) :=
  ⟨by decide,
    c4_clamp_valid wellBook
      { chapterIndex := 5, paragraphIndex := -2, wordIndex := 99 } (by decide)⟩

/-! ## Recognition point claims (C5, C10) -/

/-- Claim C5: at the word "a&#8212;" (letter a followed by the em dash U+2014),
the code does not strip the em dash (the byte-faithful strip class contains
the mojibake characters 0xE2, 0x20AC, 0x201D, not 0x2014), so calculateORP
returns 1, while the reference definition of the claim (em dash stripped,
effective length 1) returns 0. -/
theorem c5_orp_em_dash_divergence :
    calculateORP ['a', Char.ofNat 0x2014] = 1 ∧
    specORP ['a', Char.ofNat 0x2014] = 0 ∧
    Char.ofNat 0x2014 ∉ ORP_STRIP_CHARS ∧
    Char.ofNat 0x2014 ∈ SPEC_ORP_STRIP_CHARS := by
  decide

theorem orpStripLen_le (word : List Char) (n : Nat) : orpStripLen word n ≤ n := by
  induction n with
  | zero => simp [orpStripLen]
  | succ n ih =>
    unfold orpStripLen
    cases hc : word[n]? with
    | none => dsimp only; exact le_rfl
    | some c =>
      dsimp only
      by_cases hmem : c ∈ ORP_STRIP_CHARS
      · rw [if_pos hmem]
        exact le_trans ih (Nat.le_succ n)
      · rw [if_neg hmem]

/-- Claim C10: for every non-empty word, calculateORP returns an offset that
is a valid index into the original, unstripped text (it is a natural number,
so nonnegative, and strictly below the length). -/
theorem c10_orp_in_bounds (word : List Char) (h : word ≠ []) :
    calculateORP word < word.length := by
  have hlen : 0 < word.length := List.length_pos.mpr h
  have hle := orpStripLen_le word word.length
  unfold calculateORP
  dsimp only
  split
  · omega
  · next h1 =>
    split
    · next h3 => omega
    · next h3 => omega

/-- Claim C10 witness: the bound at the concrete word "hi". -/
theorem c10_witness :
    (['h', 'i'] : List Char) ≠ [] ∧
    calculateORP ['h', 'i'] < (['h', 'i'] : List Char).length :=
  ⟨by decide, c10_orp_in_bounds ['h', 'i'] (by decide)⟩

/-! ## Timing claims (C8, C9) -/

theorem PUNCTUATION_MULTIPLIERS_nonneg (c : Char) : 0 ≤ PUNCTUATION_MULTIPLIERS c := by
  unfold PUNCTUATION_MULTIPLIERS
  repeat' split
  all_goals norm_num

theorem calculatePunctuationDelay_nonneg (word : List Char) (baseInterval : ℚ)
    (hb : 0 ≤ baseInterval) : 0 ≤ calculatePunctuationDelay word baseInterval := by
  unfold calculatePunctuationDelay
  cases word.getLast? with
  | none => exact le_rfl
  | some c => exact mul_nonneg hb (PUNCTUATION_MULTIPLIERS_nonneg c)

theorem calculateLengthDelay_nonneg (word : List Char) (baseInterval factor : ℚ)
    (hb : 0 ≤ baseInterval) (hf : 0 ≤ factor) :
    0 ≤ calculateLengthDelay word baseInterval factor := by
  unfold calculateLengthDelay
  dsimp only
  split
  · exact le_rfl
  · next hpos =>
    push_neg at hpos
    exact mul_nonneg (mul_nonneg hpos.le hf) hb

theorem bucketFor_range (rank : Nat) :
    0 ≤ bucketFor BUCKET_THRESHOLDS rank ∧ bucketFor BUCKET_THRESHOLDS rank ≤ 1 := by
  simp only [BUCKET_THRESHOLDS, bucketFor, NOT_IN_LIST_MULTIPLIER]
  repeat' split
  all_goals norm_num

theorem getWordBucketMultiplier_range (wordRanks : WordRanks) (word : List Char) :
    0 ≤ getWordBucketMultiplier wordRanks word ∧
      getWordBucketMultiplier wordRanks word ≤ 1 := by
  unfold getWordBucketMultiplier
  cases wordRanks with
  | none => norm_num
  | some ranks =>
    dsimp only
    split
    · norm_num
    · split
      · norm_num
      · split
        · simp [NOT_IN_LIST_MULTIPLIER]
        · next rank _ => exact bucketFor_range rank

theorem calculateFrequencyDelay_nonneg (wordRanks : WordRanks) (word : List Char)
    (baseInterval factor : ℚ) (hb : 0 ≤ baseInterval) (hf : 0 ≤ factor) :
    0 ≤ calculateFrequencyDelay wordRanks word baseInterval factor := by
  unfold calculateFrequencyDelay
  exact mul_nonneg (mul_nonneg (getWordBucketMultiplier_range wordRanks word).1 hf) hb

/-- Claim C8: with wpm in [100,1000] and the factors in their documented
ranges, the total delay is at least the base interval 60000/wpm, hence
strictly positive.  (The frequency multiplier's range [0,1] is itself proved
from the embedded wordlist lookup rather than assumed.) -/
theorem c8_delay_lower_bound (wordRanks : WordRanks) (word : List Char) (wpm : ℚ)
    (settings : TimingSettings)
    (h1 : 100 ≤ wpm) (h2 : wpm ≤ 1000)
    (h3 : 0 ≤ settings.lengthDelayFactor) (h4 : settings.lengthDelayFactor ≤ 1/2)
    (h5 : 0 ≤ settings.frequencyDelayFactor) (h6 : settings.frequencyDelayFactor ≤ 1) :
    60000 / wpm ≤ calculateTotalDelay wordRanks word wpm settings ∧
      0 < calculateTotalDelay wordRanks word wpm settings := by
  have hwpm : 0 < wpm := by linarith
  have hbase : 0 < calculateBaseInterval wpm := by
    unfold calculateBaseInterval
    positivity
  have hpunct := calculatePunctuationDelay_nonneg word (calculateBaseInterval wpm) hbase.le
  have hlen := calculateLengthDelay_nonneg word (calculateBaseInterval wpm)
    settings.lengthDelayFactor hbase.le h3
  have hfreq := calculateFrequencyDelay_nonneg wordRanks word (calculateBaseInterval wpm)
    settings.frequencyDelayFactor hbase.le h5
  have hbv : calculateBaseInterval wpm = 60000 / wpm := rfl
  have hmain : calculateBaseInterval wpm ≤ calculateTotalDelay wordRanks word wpm settings := by
    unfold calculateTotalDelay
    dsimp only
    cases hL : settings.lengthDelayEnabled <;> cases hF : settings.frequencyDelayEnabled <;>
      simp [hL, hF] <;> linarith
  constructor
  · rw [← hbv]
    exact hmain
  · exact lt_of_lt_of_le hbase hmain

/-- Claim C8 witness: the bound at a concrete word, wpm and settings. -/
theorem c8_witness :
    (100 : ℚ) ≤ 300 ∧ (300 : ℚ) ≤ 1000 ∧
    0 ≤ DEFAULT_TIMING_SETTINGS.lengthDelayFactor ∧
    DEFAULT_TIMING_SETTINGS.lengthDelayFactor ≤ 1/2 ∧
    0 ≤ DEFAULT_TIMING_SETTINGS.frequencyDelayFactor ∧
    DEFAULT_TIMING_SETTINGS.frequencyDelayFactor ≤ 1 ∧
    (60000 / 300 ≤ calculateTotalDelay none ['a'] 300 DEFAULT_TIMING_SETTINGS ∧
      0 < calculateTotalDelay none ['a'] 300 DEFAULT_TIMING_SETTINGS) :=
  ⟨by norm_num, by norm_num,
   by norm_num [DEFAULT_TIMING_SETTINGS], by norm_num [DEFAULT_TIMING_SETTINGS],
   by norm_num [DEFAULT_TIMING_SETTINGS], by norm_num [DEFAULT_TIMING_SETTINGS],
   c8_delay_lower_bound none ['a'] 300 DEFAULT_TIMING_SETTINGS
     (by norm_num) (by norm_num)
     (by norm_num [DEFAULT_TIMING_SETTINGS]) (by norm_num [DEFAULT_TIMING_SETTINGS])
     (by norm_num [DEFAULT_TIMING_SETTINGS]) (by norm_num [DEFAULT_TIMING_SETTINGS])⟩

/-- Claim C9: the worked example.  For every wordlist state (the frequency
component is disabled), the word "extraordinary." at 300 wpm with the length
delay enabled at factor 0.1 takes exactly 660 ms: base 200 plus period
punctuation 300 plus length delay (13 - 5) x 0.1 x 200 = 160. -/
theorem c9_extraordinary_delay (wordRanks : WordRanks) :
    calculateTotalDelay wordRanks
      ['e', 'x', 't', 'r', 'a', 'o', 'r', 'd', 'i', 'n', 'a', 'r', 'y', '.'] 300
      { lengthDelayEnabled := true, lengthDelayFactor := 1/10,
        frequencyDelayEnabled := false, frequencyDelayFactor := 3/10 } = 660 := by
  have hfilter : (List.filter isAsciiAlnum
      ['e', 'x', 't', 'r', 'a', 'o', 'r', 'd', 'i', 'n', 'a', 'r', 'y', '.']).length = 13 := rfl
  have hlast : (['e', 'x', 't', 'r', 'a', 'o', 'r', 'd', 'i', 'n', 'a', 'r', 'y', '.']
      : List Char).getLast? = some '.' := rfl
  have hpm : PUNCTUATION_MULTIPLIERS '.' = 3/2 := rfl
  unfold calculateTotalDelay calculatePunctuationDelay calculateLengthDelay calculateBaseInterval
  simp only [hlast, hpm, hfilter]
  norm_num
